import Mathlib

/-!
Verification development for the GameHub memory-match dashboard.

The development shallowly embeds the core of the repository:
the Fisher-Yates style `shuffle`, the deck generator used by `reset`,
the match-engine state machine of `useMemoryDeck` (`flip`, the two
resolution-timer callbacks scheduled by `setTimeout`, `reset`, the
completion effect that stamps `finishedAt`, and `elapsedMs`), and the
two query-parameter readers `useQueryPairs` and `usePairsParam`.

Randomness (`Math.random`) is modelled by an explicit choice function
`js : Nat -> Nat` giving, for each loop index `i`, the chosen swap
target `j = floor(random * (i + 1))`.  Real time (`performance.now`)
is modelled by a timestamp carried on each event.  Timer callbacks are
modelled as pending entries in the engine state; an event fires one of
them.  Note that the source never cancels a timeout on `reset`, so
pending entries deliberately survive a reset, exactly as in the code.
-/

namespace GamesHub

/-- One card of the memory deck, mirroring the `Card` type of the source:
a stable numeric `id`, the `emoji` token, and the `flipped` / `matched`
boolean facets. -/
structure Card where
  id : Nat
  emoji : String
  flipped : Bool
  matched : Bool
deriving DecidableEq

/-- A swap of two positions of a list, modelling the destructuring swap
`[a[i], a[j]] = [a[j], a[i]]` in the body of `shuffle`.  In the source both
indices are always in range (the loop index is, and `Math.random() < 1`
keeps `j` at most `i`); out-of-range indices leave the list unchanged. -/
def swapAt {α : Type} (a : List α) (i j : Nat) : List α :=
  if h : i < a.length ∧ j < a.length then
    (a.set i (a.get ⟨j, h.2⟩)).set j (a.get ⟨i, h.1⟩)
  else a

/-- The loop of `shuffle`: `for (let i = a.length - 1; i > 0; i--)` performs
the swap at positions `i` and `js i`, counting `i` down to `1`. -/
def shuffleFrom {α : Type} (js : Nat → Nat) : Nat → List α → List α
  | 0, a => a
  | i + 1, a => shuffleFrom js i (swapAt a (i + 1) (js (i + 1)))

/-- The `shuffle` function of the source: copy the input array and run the
downward swap loop from index `length - 1`. -/
def shuffle {α : Type} (js : Nat → Nat) (arr : List α) : List α :=
  shuffleFrom js (arr.length - 1) arr

/-- The fixed sixteen-token emoji palette of `useMemoryDeck`. -/
def emojis : List String :=
  ["🍕", "🎮", "🚀", "🤖", "🐱", "🧠", "⚡️", "🌈",
   "🍪", "🎧", "🧩", "💎", "🔥", "🌙", "📀", "🪄"]

/-- The seeded (pre-shuffle) deck built inside `reset`:
`emojis.slice(0, pairs).flatMap((e, idx) => [two cards of token e])`,
with sequential ids `idx * 2` and `idx * 2 + 1`. -/
def seeded (pairs : Nat) : List Card :=
  (emojis.take pairs).enum.flatMap fun p =>
    [{ id := p.1 * 2, emoji := p.2, flipped := false, matched := false },
     { id := p.1 * 2 + 1, emoji := p.2, flipped := false, matched := false }]

/-- The deck produced by `reset`: the seeded paired deck passed through
`shuffle`, with `js` the explicit model of the random draws. -/
def resetDeck (pairs : Nat) (js : Nat → Nat) : List Card :=
  shuffle js (seeded pairs)

/-- One pending `setTimeout` resolution callback: which branch was
scheduled (`isMatch` selects the match callback versus the mismatch
callback) and the delay it was scheduled with (350 or 650 ms). -/
structure Timer where
  isMatch : Bool
  delayMs : Nat
deriving DecidableEq

/-- The state owned by `useMemoryDeck`: the five `useState` cells plus the
list of scheduled, not yet fired, resolution timers. -/
structure Engine where
  deck : List Card
  moves : Nat
  locked : Bool
  startedAt : Option Nat
  finishedAt : Option Nat
  pending : List Timer
deriving DecidableEq

/-- JavaScript truthiness of a `number | null` value: `null` and `0` are
falsy.  Used to model `!startedAt` and `finishedAt && startedAt`. -/
def truthy : Option Nat → Bool
  | none => false
  | some n => n != 0

/-- The face-up unresolved cards of a deck, mirroring
`d.filter(c => c.flipped && !c.matched)` computed inside `flip`. -/
def openCards (d : List Card) : List Card :=
  d.filter fun c => c.flipped && !c.matched

/-- The completion effect of `useMemoryDeck`: whenever the deck value is
replaced, if the deck is nonempty and every card is matched, stamp
`finishedAt` with the current time.  It runs after every deck update
because each update allocates a fresh array. -/
def completeCheck (tNow : Nat) (s : Engine) : Engine :=
  if s.deck.length != 0 && s.deck.all (fun c => c.matched) then
    { s with finishedAt := some tNow }
  else s

/-- A default card, standing in for the (unreachable) `undefined` of the
destructuring `const [a, b] = open` when `open` has fewer than two
elements; `flip` only destructures after checking `open.length === 2`. -/
def dummyCard : Card :=
  { id := 0, emoji := "", flipped := false, matched := false }

/-- The guard of `flip`: a flip of `index` is accepted exactly when the
lock is not held, the index denotes a card, and that card is neither
face-up nor matched. -/
def flipAccepted (s : Engine) (index : Nat) : Bool :=
  !s.locked &&
    match s.deck[index]? with
    | none => false
    | some card => !card.flipped && !card.matched

/-- The deck after the accepted part of `flip` sets `card.flipped = true`
at position `index` (the deck unchanged when the index is out of range). -/
def flipDeck (s : Engine) (index : Nat) : List Card :=
  match s.deck[index]? with
  | none => s.deck
  | some card => s.deck.set index { card with flipped := true }

/-- The `flip` transition of `useMemoryDeck`.  Mirrors the source: bail out
while locked; bail out on a missing, already flipped, or matched card;
record the session start on a falsy `startedAt`; set the card face-up;
if exactly two unresolved cards are now open, take the lock, count one
move, compare the two open cards' tokens and schedule the corresponding
resolution timer (350 ms for a match, 650 ms for a mismatch). -/
def flip (s : Engine) (index : Nat) (tNow : Nat) : Engine :=
  if s.locked then s
  else
    match s.deck[index]? with
    | none => s
    | some card =>
      if card.flipped || card.matched then s
      else
        let started := if !(truthy s.startedAt) then some tNow else s.startedAt
        let d := s.deck.set index { card with flipped := true }
        let opn := openCards d
        if opn.length == 2 then
          let a := opn.getD 0 dummyCard
          let b := opn.getD 1 dummyCard
          let isM := a.emoji == b.emoji
          completeCheck tNow
            { deck := d, moves := s.moves + 1, locked := true,
              startedAt := started, finishedAt := s.finishedAt,
              pending := s.pending ++
                [{ isMatch := isM, delayMs := if isM then 350 else 650 }] }
        else
          completeCheck tNow { s with deck := d, startedAt := started }

/-- Firing the `k`-th pending resolution timer.  The match callback maps
every face-up unresolved card to matched; the mismatch callback turns
every face-up unresolved card face-down; both release the lock.  The
callbacks run against the deck current at firing time, exactly as the
`setDeck(cur => ...)` updaters of the source do — there is no
generation guard. -/
def fire (s : Engine) (k : Nat) (tNow : Nat) : Engine :=
  match s.pending[k]? with
  | none => s
  | some tm =>
    let d :=
      if tm.isMatch then
        s.deck.map fun c =>
          if c.flipped && !c.matched then { c with matched := true } else c
      else
        s.deck.map fun c =>
          if c.flipped && !c.matched then { c with flipped := false } else c
    completeCheck tNow { s with deck := d, locked := false, pending := s.pending.eraseIdx k }

/-- The `reset` transition: install a freshly generated deck, zero the
move counter, release the lock and clear both timestamps.  The source
never cancels outstanding `setTimeout`s, so pending timers survive. -/
def reset (s : Engine) (pairs : Nat) (js : Nat → Nat) (tNow : Nat) : Engine :=
  completeCheck tNow
    { deck := resetDeck pairs js, moves := 0, locked := false,
      startedAt := none, finishedAt := none, pending := s.pending }

/-- The external events that drive the engine: a user flip, the firing of
one pending resolution timer, and a reset (restart button or pair-count
change).  Each carries the `performance.now` value of its instant. -/
inductive Event where
  | flip (index : Nat) (tNow : Nat)
  | fire (k : Nat) (tNow : Nat)
  | reset (pairs : Nat) (js : Nat → Nat) (tNow : Nat)

/-- One step of the event-driven engine. -/
def step (s : Engine) : Event → Engine
  | .flip i t => flip s i t
  | .fire k t => fire s k t
  | .reset p js t => reset s p js t

/-- Running a sequence of events. -/
def run (s : Engine) (es : List Event) : Engine :=
  es.foldl step s

/-- The state before the mount effect: all cells at their `useState`
initial values. -/
def emptyEngine : Engine :=
  { deck := [], moves := 0, locked := false,
    startedAt := none, finishedAt := none, pending := [] }

/-- A fresh engine: the mount effect performs the initial `reset`. -/
def engineInit (pairs : Nat) (js : Nat → Nat) : Engine :=
  reset emptyEngine pairs js 0

/-- The derived `elapsedMs` value:
`finishedAt && startedAt ? Math.round(finishedAt - startedAt) : null`. -/
def elapsedMs (s : Engine) : Option Nat :=
  if truthy s.finishedAt && truthy s.startedAt then
    some (s.finishedAt.getD 0 - s.startedAt.getD 0)
  else none

/-- An identity choice function: drawing `j = i` at every loop index makes
each swap a no-op, so `shuffle idChoice` is the identity permutation.
Used to build concrete executions. -/
def idChoice : Nat → Nat := fun i => i

/-- The raw `pairs` query value as far as JavaScript numeric conversion
can distinguish the cases the readers branch on: the parameter may be
absent (`params.get` returns `null`, and `Number(null) = 0`), present
but empty (falsy as a string, and `Number("") = 0`), present but not a
number (`Number` gives `NaN`), or numeric with an integer value. -/
inductive QueryVal where
  | absent
  | empty
  | nonNumeric
  | numeric (n : Int)

/-- JavaScript `Number` applied to the raw query value, with `none`
standing for `NaN` (the only non-finite value reachable here). -/
def jsNumber : QueryVal → Option Int
  | .absent => some 0
  | .empty => some 0
  | .nonNumeric => none
  | .numeric n => some n

/-- The `useQueryPairs` reader of the plain variants:
`Number.isFinite(n) && n >= 4 && n <= 24 ? n : 8`. -/
def useQueryPairs (v : QueryVal) : Int :=
  match jsNumber v with
  | none => 8
  | some n => if 4 ≤ n ∧ n ≤ 24 then n else 8

/-- The supported pair counts offered by the select control and enforced
by `usePairsParam` (`MEMORY_PAIR_OPTIONS`). -/
def memoryPairOptions : List Int := [6, 8, 10, 12]

/-- The `parse` function `usePairsParam` passes to `useSearchParamState`:
falsy raw values are rejected, then the numeric value must be one of
`MEMORY_PAIR_OPTIONS`. -/
def usePairsParamParse : QueryVal → Option Int
  | .absent => none
  | .empty => none
  | .nonNumeric => none
  | .numeric n => if memoryPairOptions.contains n then some n else none

/-- The value `usePairsParam` resolves: the parsed value, or the default 8
(`parsed ?? defaultValue`). -/
def usePairsParam (v : QueryVal) : Int :=
  (usePairsParamParse v).getD 8

/-- Moving the element at position `m` to the front while writing `x` into
position `m` permutes a cons of `x`: the building block of a swap. -/
theorem cons_set_perm {α : Type} (x : α) : ∀ (l : List α) (m : Nat) (h : m < l.length),
    (l.get ⟨m, h⟩ :: l.set m x).Perm (x :: l)
  | [], _, h => by simp at h
  | y :: ys, 0, _ => by
    simpa using List.Perm.swap x y ys
  | y :: ys, m + 1, h => by
    have hm : m < ys.length := by simpa using h
    have ih := cons_set_perm x ys m hm
    show (ys.get ⟨m, hm⟩ :: y :: ys.set m x).Perm (x :: y :: ys)
    exact ((List.Perm.swap y (ys.get ⟨m, hm⟩) (ys.set m x)).trans (ih.cons y)).trans
      (List.Perm.swap x y ys)

/-- Writing the element of position `j` into position `i` and the element
of position `i` into position `j` permutes the list. -/
theorem set_set_perm {α : Type} :
    ∀ (l : List α) (i j : Nat) (hi : i < l.length) (hj : j < l.length),
    ((l.set i (l.get ⟨j, hj⟩)).set j (l.get ⟨i, hi⟩)).Perm l
  | [], _, _, hi, _ => by simp at hi
  | _ :: _, 0, 0, _, _ => by simp
  | y :: ys, 0, j + 1, _, hj => by
    have hm : j < ys.length := by simpa using hj
    simpa using cons_set_perm y ys j hm
  | y :: ys, i + 1, 0, hi, _ => by
    have hn : i < ys.length := by simpa using hi
    simpa using cons_set_perm y ys i hn
  | y :: ys, i + 1, j + 1, hi, hj => by
    have hn : i < ys.length := by simpa using hi
    have hm : j < ys.length := by simpa using hj
    simpa using (set_set_perm ys i j hn hm).cons y

/-- A single swap step of the shuffle loop permutes the list. -/
theorem swapAt_perm {α : Type} (a : List α) (i j : Nat) : (swapAt a i j).Perm a := by
  unfold swapAt
  split
  · exact set_set_perm ..
  · exact List.Perm.refl a

/-- The whole downward swap loop permutes the list. -/
theorem shuffleFrom_perm {α : Type} (js : Nat → Nat) :
    ∀ (i : Nat) (a : List α), (shuffleFrom js i a).Perm a
  | 0, a => List.Perm.refl a
  | i + 1, a =>
    (shuffleFrom_perm js i (swapAt a (i + 1) (js (i + 1)))).trans
      (swapAt_perm a (i + 1) (js (i + 1)))

/-- The shuffle returns a permutation of its input, for every sequence of
random draws. -/
theorem shuffle_perm {α : Type} (js : Nat → Nat) (arr : List α) :
    (shuffle js arr).Perm arr :=
  shuffleFrom_perm js (arr.length - 1) arr

/-- Every card of the seeded deck starts face-down and unmatched. -/
theorem seeded_flags (pairs : Nat) :
    ∀ c ∈ seeded pairs, c.flipped = false ∧ c.matched = false := by
  intro c hc
  simp only [seeded, List.mem_flatMap, List.mem_cons, List.not_mem_nil, or_false] at hc
  obtain ⟨p, _, hc⟩ := hc
  rcases hc with h | h <;> (subst h; exact ⟨rfl, rfl⟩)

/-- Every card of a freshly generated deck starts face-down and
unmatched, whatever the random draws were. -/
theorem resetDeck_flags (pairs : Nat) (js : Nat → Nat) :
    ∀ c ∈ resetDeck pairs js, c.flipped = false ∧ c.matched = false := by
  intro c hc
  exact seeded_flags pairs c ((shuffle_perm js (seeded pairs)).mem_iff.mp hc)

/-- A freshly generated deck has no face-up unresolved card. -/
theorem openCards_resetDeck (pairs : Nat) (js : Nat → Nat) :
    openCards (resetDeck pairs js) = [] := by
  rw [openCards, List.filter_eq_nil_iff]
  intro c hc
  have := (resetDeck_flags pairs js c hc).1
  simp [this]

/-- A nonempty freshly generated deck is not all-matched, so the
completion effect never fires right after a reset: `reset` always
produces the plainly cleared state (with the pending timers kept, since
the source never clears its timeouts). -/
theorem reset_eq (s : Engine) (pairs : Nat) (js : Nat → Nat) (tNow : Nat) :
    reset s pairs js tNow =
      { deck := resetDeck pairs js, moves := 0, locked := false,
        startedAt := none, finishedAt := none, pending := s.pending } := by
  unfold reset completeCheck
  split
  · rename_i hcond
    simp only [Bool.and_eq_true, bne_iff_ne, ne_eq, List.all_eq_true] at hcond
    obtain ⟨hne, hall⟩ := hcond
    rcases hd : resetDeck pairs js with _ | ⟨c, rest⟩
    · simp [hd] at hne
    · have hc : c ∈ resetDeck pairs js := by rw [hd]; exact List.mem_cons_self c rest
      have := (resetDeck_flags pairs js c hc).2
      have := hall c hc
      simp_all
  · rfl

/-- The completion effect only ever writes `finishedAt`. -/
theorem completeCheck_deck (tNow : Nat) (s : Engine) :
    (completeCheck tNow s).deck = s.deck := by
  unfold completeCheck; split <;> rfl

/-- The completion effect leaves the move counter alone. -/
theorem completeCheck_moves (tNow : Nat) (s : Engine) :
    (completeCheck tNow s).moves = s.moves := by
  unfold completeCheck; split <;> rfl

/-- The completion effect leaves the lock alone. -/
theorem completeCheck_locked (tNow : Nat) (s : Engine) :
    (completeCheck tNow s).locked = s.locked := by
  unfold completeCheck; split <;> rfl

/-- The completion effect leaves the start timestamp alone. -/
theorem completeCheck_startedAt (tNow : Nat) (s : Engine) :
    (completeCheck tNow s).startedAt = s.startedAt := by
  unfold completeCheck; split <;> rfl

/-- The completion effect leaves the pending timers alone. -/
theorem completeCheck_pending (tNow : Nat) (s : Engine) :
    (completeCheck tNow s).pending = s.pending := by
  unfold completeCheck; split <;> rfl

/-- On a nonempty fully matched deck, the completion effect stamps the
current time. -/
theorem completeCheck_finishedAt_pos (tNow : Nat) (s : Engine)
    (h : (s.deck.length != 0 && s.deck.all fun c => c.matched) = true) :
    (completeCheck tNow s).finishedAt = some tNow := by
  unfold completeCheck
  rw [if_pos h]

/-- Otherwise the completion effect leaves `finishedAt` alone. -/
theorem completeCheck_finishedAt_neg (tNow : Nat) (s : Engine)
    (h : (s.deck.length != 0 && s.deck.all fun c => c.matched) = false) :
    (completeCheck tNow s).finishedAt = s.finishedAt := by
  unfold completeCheck
  rw [if_neg]
  simp [h]

/-- While some card of the deck is unmatched, the completion effect
leaves `finishedAt` alone. -/
theorem completeCheck_finishedAt_of_unmatched (tNow : Nat) (s : Engine)
    (h : ∃ c ∈ s.deck, c.matched = false) :
    (completeCheck tNow s).finishedAt = s.finishedAt := by
  unfold completeCheck
  split
  · rename_i hcond
    simp only [Bool.and_eq_true, List.all_eq_true] at hcond
    obtain ⟨c, hc, hm⟩ := h
    have := hcond.2 c hc
    simp_all
  · rfl

/-- Unfolding the guard of `flip`. -/
theorem flipAccepted_iff (s : Engine) (i : Nat) :
    flipAccepted s i = true ↔
      s.locked = false ∧
        ∃ c, s.deck[i]? = some c ∧ c.flipped = false ∧ c.matched = false := by
  unfold flipAccepted
  cases hl : s.locked <;> cases hget : s.deck[i]? <;>
    simp [hl, hget, Bool.and_eq_true, Bool.not_eq_true']

/-- A rejected `flip` — lock held, index out of range, card already
face-up or already matched — is the identity on the whole state. -/
theorem flip_rejected (s : Engine) (i tNow : Nat)
    (h : flipAccepted s i = false) : flip s i tNow = s := by
  unfold flip
  unfold flipAccepted at h
  cases hl : s.locked
  · cases hget : s.deck[i]? with
    | none => simp [hl, hget]
    | some c =>
      simp only [hl, hget, Bool.not_false, Bool.true_and] at h
      have : c.flipped || c.matched := by
        cases hf : c.flipped <;> cases hm : c.matched <;> simp_all
      simp [hl, hget, this]
  · simp [hl]

/-- An accepted `flip` reduces to the explicit two-way branch on whether
the flip completed a pair. -/
theorem flip_accepted_eq (s : Engine) (i tNow : Nat) (c : Card)
    (hl : s.locked = false) (hget : s.deck[i]? = some c)
    (hf : c.flipped = false) (hm : c.matched = false) :
    flip s i tNow =
      (if (openCards (s.deck.set i { c with flipped := true })).length == 2 then
        completeCheck tNow
          { deck := s.deck.set i { c with flipped := true },
            moves := s.moves + 1, locked := true,
            startedAt := if !(truthy s.startedAt) then some tNow else s.startedAt,
            finishedAt := s.finishedAt,
            pending := s.pending ++
              [{ isMatch := ((openCards (s.deck.set i { c with flipped := true })).getD 0
                    dummyCard).emoji ==
                  ((openCards (s.deck.set i { c with flipped := true })).getD 1
                    dummyCard).emoji,
                 delayMs := if ((openCards (s.deck.set i { c with flipped := true })).getD 0
                    dummyCard).emoji ==
                  ((openCards (s.deck.set i { c with flipped := true })).getD 1
                    dummyCard).emoji then 350 else 650 }] }
      else
        completeCheck tNow
          { s with deck := s.deck.set i { c with flipped := true },
                   startedAt := if !(truthy s.startedAt) then some tNow else s.startedAt }) := by
  unfold flip
  simp only [hl, hget, hf, hm, Bool.false_or, Bool.or_false, if_neg Bool.false_ne_true]

/-- Setting a freshly flipped unmatched card into the deck adds exactly
one card to the open set. -/
theorem length_filter_set_pos {α : Type} (p : α → Bool) :
    ∀ (d : List α) (i : Nat) (c c' : α), d[i]? = some c → p c = false → p c' = true →
      ((d.set i c').filter p).length = (d.filter p).length + 1
  | [], i, c, c', hget, _, _ => by simp at hget
  | x :: xs, 0, c, c', hget, hpc, hpc' => by
    have hx : x = c := by simpa using hget
    subst hx
    simp [List.filter_cons, hpc, hpc']
  | x :: xs, i + 1, c, c', hget, hpc, hpc' => by
    have hget' : xs[i]? = some c := by simpa using hget
    have ih := length_filter_set_pos p xs i c c' hget' hpc hpc'
    cases hx : p x <;> simp [List.filter_cons, hx, ih]

/-- The open set grows by exactly one card on an accepted flip. -/
theorem openCards_flipDeck (s : Engine) (i : Nat) (c : Card)
    (hget : s.deck[i]? = some c) (hf : c.flipped = false) (hm : c.matched = false) :
    (openCards (s.deck.set i { c with flipped := true })).length =
      (openCards s.deck).length + 1 := by
  unfold openCards
  exact length_filter_set_pos _ s.deck i c { c with flipped := true }
    hget (by simp [hf]) (by simp [hm])

/-- The match callback closes every open card, so none stays open. -/
theorem openCards_fire_match (d : List Card) :
    openCards (d.map fun c =>
      if c.flipped && !c.matched then { c with matched := true } else c) = [] := by
  rw [openCards, List.filter_eq_nil_iff]
  intro c hc
  simp only [List.mem_map] at hc
  obtain ⟨c0, _, hc⟩ := hc
  subst hc
  cases hf : c0.flipped <;> cases hm : c0.matched <;> simp [hf, hm]

/-- The mismatch callback hides every open card, so none stays open. -/
theorem openCards_fire_mismatch (d : List Card) :
    openCards (d.map fun c =>
      if c.flipped && !c.matched then { c with flipped := false } else c) = [] := by
  rw [openCards, List.filter_eq_nil_iff]
  intro c hc
  simp only [List.mem_map] at hc
  obtain ⟨c0, _, hc⟩ := hc
  subst hc
  cases hf : c0.flipped <;> cases hm : c0.matched <;> simp [hf, hm]

/-- Firing an index with no scheduled timer does nothing. -/
theorem fire_no_timer (s : Engine) (k tNow : Nat)
    (h : s.pending[k]? = none) : fire s k tNow = s := by
  unfold fire
  simp [h]

/-- Firing the `k`-th scheduled timer reduces to the callback of its
branch followed by the completion effect. -/
theorem fire_eq (s : Engine) (k tNow : Nat) (tm : Timer)
    (h : s.pending[k]? = some tm) :
    fire s k tNow =
      completeCheck tNow
        { s with
          deck :=
            if tm.isMatch then
              s.deck.map fun c =>
                if c.flipped && !c.matched then { c with matched := true } else c
            else
              s.deck.map fun c =>
                if c.flipped && !c.matched then { c with flipped := false } else c,
          locked := false, pending := s.pending.eraseIdx k } := by
  unfold fire
  simp only [h]

/-- Firing a scheduled match timer runs the match callback. -/
theorem fire_eq_match (s : Engine) (k tNow : Nat) (tm : Timer)
    (h : s.pending[k]? = some tm) (hm : tm.isMatch = true) :
    fire s k tNow =
      completeCheck tNow
        { s with
          deck := s.deck.map fun c =>
            if c.flipped && !c.matched then { c with matched := true } else c,
          locked := false, pending := s.pending.eraseIdx k } := by
  rw [fire_eq s k tNow tm h, hm]
  rfl

/-- Firing a scheduled mismatch timer runs the mismatch callback. -/
theorem fire_eq_mismatch (s : Engine) (k tNow : Nat) (tm : Timer)
    (h : s.pending[k]? = some tm) (hm : tm.isMatch = false) :
    fire s k tNow =
      completeCheck tNow
        { s with
          deck := s.deck.map fun c =>
            if c.flipped && !c.matched then { c with flipped := false } else c,
          locked := false, pending := s.pending.eraseIdx k } := by
  rw [fire_eq s k tNow tm h, hm]
  rfl

/-- The lock discipline: with the lock free at most one unresolved card is
face-up, with it held at most two. -/
def FlipInv (s : Engine) : Prop :=
  (openCards s.deck).length ≤ if s.locked then 2 else 1

/-- Every matched card is face-up. -/
def MatchedInv (s : Engine) : Prop :=
  ∀ c ∈ s.deck, c.matched = true → c.flipped = true

/-- A truthy completion timestamp only exists on a nonempty, fully
matched deck. -/
def FinishedInv (s : Engine) : Prop :=
  truthy s.finishedAt = true → s.deck ≠ [] ∧ s.deck.all (fun c => c.matched) = true

/-- The completion effect preserves the completion invariant. -/
theorem finishedInv_completeCheck (tNow : Nat) (s : Engine)
    (h : FinishedInv s) : FinishedInv (completeCheck tNow s) := by
  unfold FinishedInv completeCheck
  by_cases hcond : (s.deck.length != 0 && s.deck.all fun c => c.matched) = true
  · rw [if_pos hcond]
    simp only [Bool.and_eq_true, bne_iff_ne, ne_eq] at hcond
    intro _
    exact ⟨fun hnil => hcond.1 (by rw [hnil]; rfl), hcond.2⟩
  · rw [if_neg hcond]
    exact h

/-- The match callback keeps a fully matched deck fully matched. -/
theorem all_matched_map_match (d : List Card)
    (h : d.all (fun c => c.matched) = true) :
    ((d.map fun c =>
        if c.flipped && !c.matched then { c with matched := true } else c).all
      fun c => c.matched) = true := by
  rw [List.all_eq_true]
  intro x hx
  simp only [List.mem_map] at hx
  obtain ⟨c0, hc0, hx⟩ := hx
  subst hx
  have hm0 := List.all_eq_true.mp h c0 hc0
  simp [hm0]

/-- The mismatch callback keeps a fully matched deck fully matched. -/
theorem all_matched_map_mismatch (d : List Card)
    (h : d.all (fun c => c.matched) = true) :
    ((d.map fun c =>
        if c.flipped && !c.matched then { c with flipped := false } else c).all
      fun c => c.matched) = true := by
  rw [List.all_eq_true]
  intro x hx
  simp only [List.mem_map] at hx
  obtain ⟨c0, hc0, hx⟩ := hx
  subst hx
  have hm0 := List.all_eq_true.mp h c0 hc0
  simp [hm0]

/-- A flip never writes the completion timestamp: the card it turns
face-up is unmatched, so the completion effect cannot trigger. -/
theorem flip_finishedAt (s : Engine) (i tNow : Nat) :
    (flip s i tNow).finishedAt = s.finishedAt := by
  cases hacc : flipAccepted s i
  · rw [flip_rejected s i tNow hacc]
  · obtain ⟨hl, c, hget, hf, hm⟩ := (flipAccepted_iff s i).mp hacc
    have hlt : i < s.deck.length := (List.getElem?_eq_some_iff.mp hget).1
    have hmem : ({ c with flipped := true } : Card) ∈
        s.deck.set i { c with flipped := true } :=
      List.mem_set s.deck i hlt { c with flipped := true }
    rw [flip_accepted_eq s i tNow c hl hget hf hm]
    split <;> rw [completeCheck_finishedAt_of_unmatched] <;>
      exact ⟨{ c with flipped := true }, hmem, hm⟩

/-- The lock discipline is preserved by every event. -/
theorem flipInv_step (s : Engine) (e : Event) (h : FlipInv s) : FlipInv (step s e) := by
  cases e with
  | flip i t =>
    show FlipInv (flip s i t)
    cases hacc : flipAccepted s i
    · rw [flip_rejected s i t hacc]; exact h
    · obtain ⟨hl, c, hget, hf, hm⟩ := (flipAccepted_iff s i).mp hacc
      have hgrow := openCards_flipDeck s i c hget hf hm
      have hbound : (openCards s.deck).length ≤ 1 := by
        have := h; unfold FlipInv at this; rwa [hl, if_neg Bool.false_ne_true] at this
      rw [flip_accepted_eq s i t c hl hget hf hm]
      unfold FlipInv
      split
      · rename_i hcond
        rw [completeCheck_deck, completeCheck_locked]
        have : (openCards (s.deck.set i { c with flipped := true })).length = 2 := by
          simpa using hcond
        simp [this]
      · rename_i hcond
        rw [completeCheck_deck, completeCheck_locked]
        have hne : (openCards (s.deck.set i { c with flipped := true })).length ≠ 2 := by
          simpa using hcond
        simp only [hl, if_neg Bool.false_ne_true]
        omega
  | fire k t =>
    show FlipInv (fire s k t)
    cases hget : s.pending[k]? with
    | none => rw [fire_no_timer s k t hget]; exact h
    | some tm =>
      rw [fire_eq s k t tm hget]
      unfold FlipInv
      rw [completeCheck_deck, completeCheck_locked]
      split
      · rw [openCards_fire_match]; simp
      · rw [openCards_fire_mismatch]; simp
  | reset p js t =>
    show FlipInv (reset s p js t)
    rw [reset_eq]
    unfold FlipInv
    simp [openCards_resetDeck]

/-- The lock discipline is preserved by every run. -/
theorem flipInv_run (tr : List Event) : ∀ (s : Engine), FlipInv s → FlipInv (run s tr) := by
  induction tr with
  | nil => intro s h; exact h
  | cons e tr ih => intro s h; exact ih (step s e) (flipInv_step s e h)

/-- A fresh engine satisfies the lock discipline. -/
theorem flipInv_init (p : Nat) (js : Nat → Nat) : FlipInv (engineInit p js) := by
  unfold engineInit
  rw [reset_eq]
  unfold FlipInv
  simp [openCards_resetDeck]

/-- Matched cards stay face-up through every event. -/
theorem matchedInv_step (s : Engine) (e : Event) (h : MatchedInv s) :
    MatchedInv (step s e) := by
  cases e with
  | flip i t =>
    show MatchedInv (flip s i t)
    cases hacc : flipAccepted s i
    · rw [flip_rejected s i t hacc]; exact h
    · obtain ⟨hl, c, hget, hf, hm⟩ := (flipAccepted_iff s i).mp hacc
      rw [flip_accepted_eq s i t c hl hget hf hm]
      unfold MatchedInv
      split <;> rw [completeCheck_deck] <;> intro x hx hmx <;>
        rcases List.mem_or_eq_of_mem_set hx with hx' | hx'
      · exact h x hx' hmx
      · subst hx'; simp_all
      · exact h x hx' hmx
      · subst hx'; simp_all
  | fire k t =>
    show MatchedInv (fire s k t)
    cases hget : s.pending[k]? with
    | none => rw [fire_no_timer s k t hget]; exact h
    | some tm =>
      rw [fire_eq s k t tm hget]
      unfold MatchedInv
      rw [completeCheck_deck]
      split <;> intro x hx hmx <;> simp only [List.mem_map] at hx <;>
        obtain ⟨c0, hc0, hx⟩ := hx <;> subst hx
      · by_cases hopen : (c0.flipped && !c0.matched) = true
        · rw [if_pos hopen] at hmx ⊢
          simpa using (Bool.and_eq_true _ _ |>.mp hopen).1
        · rw [if_neg hopen] at hmx ⊢
          exact h c0 hc0 hmx
      · by_cases hopen : (c0.flipped && !c0.matched) = true
        · rw [if_pos hopen] at hmx
          have := (Bool.and_eq_true _ _ |>.mp hopen).2
          simp at this
          simp_all
        · rw [if_neg hopen] at hmx ⊢
          exact h c0 hc0 hmx
  | reset p js t =>
    show MatchedInv (reset s p js t)
    rw [reset_eq]
    intro x hx hmx
    have := (resetDeck_flags p js x hx).2
    simp_all

/-- Matched cards stay face-up through every run. -/
theorem matchedInv_run (tr : List Event) :
    ∀ (s : Engine), MatchedInv s → MatchedInv (run s tr) := by
  induction tr with
  | nil => intro s h; exact h
  | cons e tr ih => intro s h; exact ih (step s e) (matchedInv_step s e h)

/-- A fresh engine has no matched card at all. -/
theorem matchedInv_init (p : Nat) (js : Nat → Nat) : MatchedInv (engineInit p js) := by
  unfold engineInit
  rw [reset_eq]
  intro x hx hmx
  have := (resetDeck_flags p js x hx).2
  simp_all

/-- A truthy completion timestamp certifies a nonempty all-matched deck,
through every event. -/
theorem finishedInv_step (s : Engine) (e : Event) (h : FinishedInv s) :
    FinishedInv (step s e) := by
  cases e with
  | flip i t =>
    show FinishedInv (flip s i t)
    cases hacc : flipAccepted s i
    · rw [flip_rejected s i t hacc]; exact h
    · obtain ⟨hl, c, hget, hf, hm⟩ := (flipAccepted_iff s i).mp hacc
      intro htruthy
      rw [flip_finishedAt] at htruthy
      have hall := (h htruthy).2
      have hcmem : c ∈ s.deck := List.getElem?_mem hget
      have := List.all_eq_true.mp hall c hcmem
      simp_all
  | fire k t =>
    show FinishedInv (fire s k t)
    cases hget : s.pending[k]? with
    | none => rw [fire_no_timer s k t hget]; exact h
    | some tm =>
      cases htm : tm.isMatch
      · rw [fire_eq_mismatch s k t tm hget htm]
        apply finishedInv_completeCheck
        intro htruthy
        replace htruthy : truthy s.finishedAt = true := htruthy
        obtain ⟨hne, hall⟩ := h htruthy
        refine ⟨?_, all_matched_map_mismatch s.deck hall⟩
        intro hnil
        exact hne (List.map_eq_nil_iff.mp hnil)
      · rw [fire_eq_match s k t tm hget htm]
        apply finishedInv_completeCheck
        intro htruthy
        replace htruthy : truthy s.finishedAt = true := htruthy
        obtain ⟨hne, hall⟩ := h htruthy
        refine ⟨?_, all_matched_map_match s.deck hall⟩
        intro hnil
        exact hne (List.map_eq_nil_iff.mp hnil)
  | reset p js t =>
    show FinishedInv (reset s p js t)
    rw [reset_eq]
    intro htruthy
    simp [truthy] at htruthy
/-- A truthy completion timestamp certifies a nonempty all-matched deck,
through every run. -/
theorem finishedInv_run (tr : List Event) :
    ∀ (s : Engine), FinishedInv s → FinishedInv (run s tr) := by
  induction tr with
  | nil => intro s h; exact h
  | cons e tr ih => intro s h; exact ih (step s e) (finishedInv_step s e h)

/-- A fresh engine has no completion timestamp. -/
theorem finishedInv_init (p : Nat) (js : Nat → Nat) : FinishedInv (engineInit p js) := by
  unfold engineInit
  rw [reset_eq]
  intro htruthy
  simp [truthy] at htruthy

/-- On a fully matched deck every flip is rejected, whatever the index. -/
theorem flip_all_matched (s : Engine) (i tNow : Nat)
    (h : s.deck.all (fun c => c.matched) = true) : flip s i tNow = s := by
  unfold flip
  cases hl : s.locked
  · cases hget : s.deck[i]? with
    | none => simp [hget]
    | some c =>
      have hc : c ∈ s.deck := List.getElem?_mem hget
      have hm := List.all_eq_true.mp h c hc
      simp [hget, hm]
  · simp

/-- Firing with no scheduled timers does nothing. -/
theorem fire_empty_pending (s : Engine) (k tNow : Nat)
    (h : s.pending = []) : fire s k tNow = s := by
  apply fire_no_timer
  simp [h]

/-- Recognizer for reset events. -/
def isResetEvent : Event → Bool
  | .reset _ _ _ => true
  | _ => false

/-- Once the deck is fully matched and no timer is outstanding, every
reset-free run leaves the state — deck, move count, timestamps, elapsed
time — untouched. -/
theorem run_frozen (tr : List Event) :
    ∀ (s : Engine), s.deck.all (fun c => c.matched) = true → s.pending = [] →
      tr.all (fun e => !isResetEvent e) = true → run s tr = s := by
  induction tr with
  | nil => intro s _ _ _; rfl
  | cons e tr ih =>
    intro s hall hp hnr
    simp only [List.all_cons, Bool.and_eq_true] at hnr
    have hstep : step s e = s := by
      cases e with
      | flip i t => exact flip_all_matched s i t hall
      | fire k t => exact fire_empty_pending s k t hp
      | reset p js t => simp [isResetEvent] at hnr
    show run (step s e) tr = s
    rw [hstep]
    exact ih s hall hp hnr.2

/-- A timer firing that completes the deck stamps `finishedAt` with the
time of that very firing. -/
theorem fire_stamps_completion (s : Engine) (k tNow : Nat) (tm : Timer)
    (hget : s.pending[k]? = some tm)
    (hall : (fire s k tNow).deck.all (fun c => c.matched) = true)
    (hne : (fire s k tNow).deck ≠ []) :
    (fire s k tNow).finishedAt = some tNow := by
  rw [fire_eq s k tNow tm hget] at hall hne ⊢
  rw [completeCheck_deck] at hall hne
  apply completeCheck_finishedAt_pos
  rw [hall, Bool.and_true, bne_iff_ne]
  intro hzero
  exact hne (List.length_eq_zero.mp hzero)

/-- The move counter after a flip: one more when the flip was accepted
and completed a pair, untouched otherwise. -/
theorem flip_moves (s : Engine) (i tNow : Nat) :
    (flip s i tNow).moves =
      if flipAccepted s i && ((openCards (flipDeck s i)).length == 2)
      then s.moves + 1 else s.moves := by
  cases hacc : flipAccepted s i
  · rw [flip_rejected s i tNow hacc]
    simp
  · obtain ⟨hl, c, hget, hf, hm⟩ := (flipAccepted_iff s i).mp hacc
    have hfd : flipDeck s i = s.deck.set i { c with flipped := true } := by
      unfold flipDeck; rw [hget]
    rw [flip_accepted_eq s i tNow c hl hget hf hm, hfd]
    cases hlen : ((openCards (s.deck.set i { c with flipped := true })).length == 2) <;>
      simp [hlen, completeCheck_moves]

/-- A timer firing never touches the move counter. -/
theorem fire_moves (s : Engine) (k tNow : Nat) :
    (fire s k tNow).moves = s.moves := by
  cases hget : s.pending[k]? with
  | none => rw [fire_no_timer s k tNow hget]
  | some tm => rw [fire_eq s k tNow tm hget, completeCheck_moves]

/-- The deck after an accepted flip is the old deck with that one card
set face-up. -/
theorem flip_deck_of_accepted (s : Engine) (i tNow : Nat) (c : Card)
    (hl : s.locked = false) (hget : s.deck[i]? = some c)
    (hf : c.flipped = false) (hm : c.matched = false) :
    (flip s i tNow).deck = s.deck.set i { c with flipped := true } := by
  rw [flip_accepted_eq s i tNow c hl hget hf hm]
  split <;> rw [completeCheck_deck]

/-- Claim C10: for every input list and every sequence of random draws,
`shuffle` returns a permutation of its input — same length, same
elements with the same multiplicities.  The input itself is untouched:
the source copies the array before swapping, and the embedding of that
copy is a pure function of the input. -/
theorem claim_shuffle_permutes {α : Type} (js : Nat → Nat) (arr : List α) :
    (shuffle js arr).Perm arr ∧ (shuffle js arr).length = arr.length :=
  ⟨shuffle_perm js arr, (shuffle_perm js arr).length_eq⟩

/-- Claim C4: in every state reachable from a fresh deck by any sequence
of flips, timer firings and resets, at most two cards are
simultaneously face-up and unresolved. -/
theorem claim_flip_invariant (p : Nat) (js : Nat → Nat) (tr : List Event) :
    (openCards (run (engineInit p js) tr).deck).length ≤ 2 := by
  have h := flipInv_run tr (engineInit p js) (flipInv_init p js)
  unfold FlipInv at h
  cases hl : (run (engineInit p js) tr).locked <;> rw [hl] at h <;> simp at h <;> omega

/-- Claim C9: in every reachable state, every resolved-matched card is
also face-up — no sequence of events produces a matched face-down
card. -/
theorem claim_matched_faceup (p : Nat) (js : Nat → Nat) (tr : List Event) :
    ∀ c ∈ (run (engineInit p js) tr).deck, c.matched = true → c.flipped = true :=
  matchedInv_run tr (engineInit p js) (matchedInv_init p js)

/-- Witness for claim C9 at a concrete completed run: the first card of a
one-pair game after both flips and the match resolution is matched, and
the theorem yields that it is face-up. -/
theorem claim_matched_faceup_witness :
    ({ id := 0, emoji := "🍕", flipped := true, matched := true } : Card) ∈
        (run (engineInit 1 idChoice) [.flip 0 1, .flip 1 2, .fire 0 3]).deck ∧
      ({ id := 0, emoji := "🍕", flipped := true, matched := true } : Card).matched = true ∧
      ({ id := 0, emoji := "🍕", flipped := true, matched := true } : Card).flipped = true :=
  ⟨by decide, by decide,
    claim_matched_faceup 1 idChoice [.flip 0 1, .flip 1 2, .fire 0 3]
      { id := 0, emoji := "🍕", flipped := true, matched := true }
      (by decide) (by decide)⟩

/-- Claim C5: the move counter gains exactly one on a flip that brings
the count of face-up unresolved cards to two, and is untouched by a
flip that only opens the first card, by any rejected flip, and by a
resolution-timer firing. -/
theorem claim_move_counter (s : Engine) (i k tNow : Nat) :
    ((flip s i tNow).moves =
      if flipAccepted s i && ((openCards (flipDeck s i)).length == 2)
      then s.moves + 1 else s.moves) ∧
    (fire s k tNow).moves = s.moves :=
  ⟨flip_moves s i tNow, fire_moves s k tNow⟩

/-- Claim C6: a flip is a silent no-op — the whole state unchanged —
whenever the lock is held, the index is out of range, or the targeted
card is already face-up or already matched; an accepted flip sets
exactly that one card face-up. -/
theorem claim_flip_noop_or_reveal (s : Engine) (i tNow : Nat) :
    (flipAccepted s i = false → flip s i tNow = s) ∧
    (flipAccepted s i = true →
      ∃ c, s.deck[i]? = some c ∧ c.flipped = false ∧ c.matched = false ∧
        (flip s i tNow).deck = s.deck.set i { c with flipped := true }) := by
  constructor
  · exact flip_rejected s i tNow
  · intro hacc
    obtain ⟨hl, c, hget, hf, hm⟩ := (flipAccepted_iff s i).mp hacc
    exact ⟨c, hget, hf, hm, flip_deck_of_accepted s i tNow c hl hget hf hm⟩

/-- Witness for claim C6 at a concrete input: an out-of-range flip on a
fresh two-pair engine is rejected and leaves the state untouched. -/
theorem claim_flip_noop_or_reveal_witness :
    flipAccepted (engineInit 2 idChoice) 9 = false ∧
      flip (engineInit 2 idChoice) 9 7 = engineInit 2 idChoice :=
  ⟨by decide, (claim_flip_noop_or_reveal (engineInit 2 idChoice) 9 7).1 (by decide)⟩

/-- Claim C3: for every supported pair count, deck generation returns
`2 * pairs` cards, each of the first `pairs` palette tokens on exactly
two cards, all ids distinct, and every card face-down and unmatched.
The palette itself is a fixed constant the generator only reads. -/
theorem claim_reset_generates (p : Nat) (js : Nat → Nat)
    (hp : p = 6 ∨ p = 8 ∨ p = 10 ∨ p = 12) :
    (resetDeck p js).length = 2 * p ∧
    (∀ e ∈ emojis.take p, (resetDeck p js).countP (fun c => c.emoji == e) = 2) ∧
    ((resetDeck p js).map (fun c => c.id)).Nodup ∧
    (∀ c ∈ resetDeck p js, c.flipped = false ∧ c.matched = false) := by
  have hperm : (resetDeck p js).Perm (seeded p) := shuffle_perm js (seeded p)
  refine ⟨?_, ?_, ?_, resetDeck_flags p js⟩
  · rw [hperm.length_eq]
    rcases hp with h | h | h | h <;> subst h <;> decide
  · have hbase : ∀ e ∈ emojis.take p,
        (seeded p).countP (fun c => c.emoji == e) = 2 := by
      rcases hp with h | h | h | h <;> subst h <;> decide
    intro e he
    rw [hperm.countP_eq]
    exact hbase e he
  · refine ((hperm.map (fun c => c.id)).nodup_iff).mpr ?_
    rcases hp with h | h | h | h <;> subst h <;> decide

/-- Witness for claim C3 at the smallest supported pair count and the
identity draw sequence. -/
theorem claim_reset_generates_witness :
    (6 = 6 ∨ 6 = 8 ∨ 6 = 10 ∨ 6 = 12) ∧
      ((resetDeck 6 idChoice).length = 2 * 6 ∧
        (∀ e ∈ emojis.take 6, (resetDeck 6 idChoice).countP (fun c => c.emoji == e) = 2) ∧
        ((resetDeck 6 idChoice).map (fun c => c.id)).Nodup ∧
        (∀ c ∈ resetDeck 6 idChoice, c.flipped = false ∧ c.matched = false)) :=
  ⟨Or.inl rfl, claim_reset_generates 6 idChoice (Or.inl rfl)⟩

/-- A concrete run exhibiting the stale-timer defect behind claim C2:
two-pair deck, identity shuffle; flip cards 0 and 1 (a matching pair,
scheduling the 350 ms match timer), reset, then flip card 0 of the new
deck. -/
def staleTrace : List Event :=
  [.flip 0 1, .flip 1 2, .reset 2 idChoice 3, .flip 0 4]

/-- Claim C2 (refuted by the code): the timer outstanding at the reset is
not invalidated.  If a new flip happens between the reset and the stale
firing, the firing mutates the new deck: card 0 of the post-reset deck
becomes resolved-matched without its pair — the deck differs from the
run in which the stale timer never fires, and exactly one card of the
new deck is matched. -/
theorem claim_stale_timer_mutates :
    (run (engineInit 2 idChoice) (staleTrace ++ [.fire 0 5])).deck ≠
        (run (engineInit 2 idChoice) staleTrace).deck ∧
      (run (engineInit 2 idChoice) (staleTrace ++ [.fire 0 5])).deck.countP
          (fun c => c.matched) = 1 ∧
      (run (engineInit 2 idChoice) staleTrace).moves =
        (run (engineInit 2 idChoice) (staleTrace ++ [.fire 0 5])).moves := by
  refine ⟨by decide, by decide, by decide⟩

/-- Claim C7 (refuted by the code): `useQueryPairs` — the reader the plain
variants actually use — accepts 24, a value outside the supported set
`{6, 8, 10, 12}` and beyond the 16-token palette, instead of falling
back to the default 8.  Over-palette counts therefore do reach the deck
generator in those variants. -/
theorem claim_pairs_validation_counterexample :
    useQueryPairs (QueryVal.numeric 24) = 24 ∧
      memoryPairOptions.contains 24 = false ∧
      emojis.length = 16 := by
  refine ⟨rfl, rfl, rfl⟩

/-- Claim C7 as amended: only `usePairsParam` restricts the pair count to
the supported set `{6, 8, 10, 12}` with default 8 for absent, empty,
non-numeric and out-of-set values; `useQueryPairs` instead accepts
every integer value in `[4, 24]` unchanged — including the over-palette
values 17 through 24 — and falls back to 8 only outside that range or
for non-numeric input. -/
theorem claim_pairs_validation_amended :
    (∀ n : Int, usePairsParam (.numeric n) =
        if memoryPairOptions.contains n then n else 8) ∧
    usePairsParam .absent = 8 ∧
    usePairsParam .empty = 8 ∧
    usePairsParam .nonNumeric = 8 ∧
    (∀ v : QueryVal, memoryPairOptions.contains (usePairsParam v) = true) ∧
    (∀ n : Int, useQueryPairs (.numeric n) =
        if 4 ≤ n ∧ n ≤ 24 then n else 8) ∧
    useQueryPairs .absent = 8 ∧
    useQueryPairs .empty = 8 ∧
    useQueryPairs .nonNumeric = 8 := by
  refine ⟨?_, rfl, rfl, rfl, ?_, fun n => rfl, rfl, rfl, rfl⟩
  · intro n
    unfold usePairsParam usePairsParamParse
    by_cases hmem : n ∈ memoryPairOptions <;> simp [hmem]
  · intro v
    cases v with
    | absent => decide
    | empty => decide
    | nonNumeric => decide
    | numeric n =>
      unfold usePairsParam usePairsParamParse
      by_cases hmem : n ∈ memoryPairOptions
      · simp [hmem]
      · simp [hmem]
        decide

/-- Claim C1: when an accepted flip brings exactly two unresolved cards
face-up, the engine locks and schedules one resolution timer: the
350 ms match timer when the two open cards' tokens are equal, the
650 ms mismatch timer when they differ.  Firing that timer releases the
lock and, in the match case, turns every open card — i.e. both cards —
resolved-matched with face-up kept true; in the mismatch case it turns
both back face-down and unmatched.  All other cards are untouched. -/
theorem claim_resolution (s : Engine) (i t1 t2 : Nat) (a b : Card)
    (hacc : flipAccepted s i = true)
    (h2 : (openCards (flipDeck s i)).length = 2)
    (ha : a = (openCards (flipDeck s i)).getD 0 dummyCard)
    (hb : b = (openCards (flipDeck s i)).getD 1 dummyCard) :
    (flip s i t1).locked = true ∧
    (flip s i t1).pending = s.pending ++
      [{ isMatch := a.emoji == b.emoji,
         delayMs := if a.emoji == b.emoji then 350 else 650 }] ∧
    (fire (flip s i t1) s.pending.length t2).locked = false ∧
    (a.emoji = b.emoji →
      ∀ (j : Nat) (x : Card), (flip s i t1).deck[j]? = some x →
        x.flipped = true → x.matched = false →
        (fire (flip s i t1) s.pending.length t2).deck[j]? =
          some { x with matched := true }) ∧
    (¬(a.emoji = b.emoji) →
      ∀ (j : Nat) (x : Card), (flip s i t1).deck[j]? = some x →
        x.flipped = true → x.matched = false →
        (fire (flip s i t1) s.pending.length t2).deck[j]? =
          some { x with flipped := false }) ∧
    (∀ (j : Nat) (x : Card), (flip s i t1).deck[j]? = some x →
        (x.flipped && !x.matched) = false →
        (fire (flip s i t1) s.pending.length t2).deck[j]? = some x) := by
  obtain ⟨hl, c, hget, hf, hm⟩ := (flipAccepted_iff s i).mp hacc
  have hfd : flipDeck s i = s.deck.set i { c with flipped := true } := by
    unfold flipDeck; rw [hget]
  rw [hfd] at h2 ha hb
  have hbeq : ((openCards (s.deck.set i { c with flipped := true })).length == 2) = true := by
    rw [h2]
    rfl
  have hflip := flip_accepted_eq s i t1 c hl hget hf hm
  rw [if_pos hbeq, ← ha, ← hb] at hflip
  have hpend : (flip s i t1).pending = s.pending ++
      [{ isMatch := a.emoji == b.emoji,
         delayMs := if a.emoji == b.emoji then 350 else 650 }] := by
    rw [hflip, completeCheck_pending]
  have hlocked : (flip s i t1).locked = true := by
    rw [hflip, completeCheck_locked]
  have htm : (flip s i t1).pending[s.pending.length]? =
      some { isMatch := a.emoji == b.emoji,
             delayMs := if a.emoji == b.emoji then 350 else 650 } := by
    rw [hpend]
    exact List.getElem?_concat_length _ _
  refine ⟨hlocked, hpend, ?_, ?_, ?_, ?_⟩
  · by_cases hEq : a.emoji = b.emoji
    · rw [fire_eq_match _ _ _ _ htm (by simp [hEq]), completeCheck_locked]
    · rw [fire_eq_mismatch _ _ _ _ htm (by simp [beq_iff_eq, hEq]), completeCheck_locked]
  · intro hEq j x hx hxf hxm
    rw [fire_eq_match _ _ _ _ htm (by simp [hEq]), completeCheck_deck]
    simp [List.getElem?_map, hx, hxf, hxm]
  · intro hEq j x hx hxf hxm
    rw [fire_eq_mismatch _ _ _ _ htm (by simp [beq_iff_eq, hEq]), completeCheck_deck]
    simp [List.getElem?_map, hx, hxf, hxm]
  · intro j x hx hxcond
    by_cases hEq : a.emoji = b.emoji
    · rw [fire_eq_match _ _ _ _ htm (by simp [hEq]), completeCheck_deck]
      simp only [List.getElem?_map, hx]
      simp [Option.map_some', hxcond]
      intro h1 h2
      rw [h1, h2] at hxcond
      simp at hxcond
    · rw [fire_eq_mismatch _ _ _ _ htm (by simp [beq_iff_eq, hEq]), completeCheck_deck]
      simp only [List.getElem?_map, hx]
      simp [Option.map_some', hxcond]
      intro h1 h2
      rw [h1, h2] at hxcond
      simp at hxcond

/-- Witness for claim C1 at a concrete input: a fresh two-pair deck under
the identity draws, card 0 already face-up, flipping card 1 (the other
🍕).  The hypotheses hold by computation, and the theorem yields that
firing the scheduled timer releases the lock. -/
theorem claim_resolution_witness :
    flipAccepted (run (engineInit 2 idChoice) [.flip 0 1]) 1 = true ∧
    (openCards (flipDeck (run (engineInit 2 idChoice) [.flip 0 1]) 1)).length = 2 ∧
    ({ id := 0, emoji := "🍕", flipped := true, matched := false } : Card) =
      (openCards (flipDeck (run (engineInit 2 idChoice) [.flip 0 1]) 1)).getD 0 dummyCard ∧
    ({ id := 1, emoji := "🍕", flipped := true, matched := false } : Card) =
      (openCards (flipDeck (run (engineInit 2 idChoice) [.flip 0 1]) 1)).getD 1 dummyCard ∧
    (fire (flip (run (engineInit 2 idChoice) [.flip 0 1]) 1 5)
      (run (engineInit 2 idChoice) [.flip 0 1]).pending.length 6).locked = false :=
  ⟨by decide, by decide, by decide, by decide,
    (claim_resolution (run (engineInit 2 idChoice) [.flip 0 1]) 1 5 6
      { id := 0, emoji := "🍕", flipped := true, matched := false }
      { id := 1, emoji := "🍕", flipped := true, matched := false }
      (by decide) (by decide) (by decide) (by decide)).2.2.1⟩

/-- A run completing a one-pair game while the match timer of the
pre-reset game is still pending: flip both cards of the old deck (old
match timer scheduled), reset, flip both cards of the new deck, fire
the new timer (completing the game at time 6 with start time 4). -/
def staleCompletionTrace : List Event :=
  [.flip 0 1, .flip 1 2, .reset 1 idChoice 3, .flip 0 4, .flip 1 5, .fire 1 6]

/-- Claim C8 (refuted by the code): after completion the elapsed time is
not stable until the next reset.  The stale pre-reset timer fires at
time 9, remaps the (already complete) deck, and the completion effect
re-stamps `finishedAt`: elapsed time moves from 2 ms to 5 ms with no
reset in between, so the end timestamp is not set exactly once. -/
theorem claim_completion_counterexample :
    elapsedMs (run (engineInit 1 idChoice) staleCompletionTrace) = some 2 ∧
    (run (engineInit 1 idChoice) staleCompletionTrace).finishedAt = some 6 ∧
    elapsedMs (run (engineInit 1 idChoice) (staleCompletionTrace ++ [.fire 0 9])) = some 5 ∧
    (run (engineInit 1 idChoice) (staleCompletionTrace ++ [.fire 0 9])).finishedAt = some 9 :=
  ⟨by decide, by decide, by decide, by decide⟩

/-- Claim C8 as amended: (1) elapsed time is absent until every card of a
nonempty deck is resolved-matched, in every reachable state; (2) once
the deck is fully matched and no resolution timer at all is still
pending, every reset-free continuation leaves the state and the elapsed
time exactly as they are, so the end timestamp is written exactly once.
Normal play — every run in which no timer ever outlives a reset —
reaches completion in that shape, because the completing firing
consumes the only outstanding timer; (3) the timer firing that
completes the deck stamps `finishedAt` with the time of that very
firing; (4) a flip never writes `finishedAt`.  The no-pending-timer
proviso cannot be dropped: a timer still pending when the deck is
complete — whether scheduled before the last reset, as in
`staleCompletionTrace`, or after it, when a stale firing unlocked the
engine mid-game — re-stamps `finishedAt` when it fires, changing the
elapsed time with no reset in between. -/
theorem claim_completion_amended :
    (∀ (p : Nat) (js : Nat → Nat) (tr : List Event),
      (elapsedMs (run (engineInit p js) tr)).isSome = true →
        (run (engineInit p js) tr).deck ≠ [] ∧
        (run (engineInit p js) tr).deck.all (fun c => c.matched) = true) ∧
    (∀ (s : Engine) (tr : List Event),
      s.deck.all (fun c => c.matched) = true → s.pending = [] →
      tr.all (fun e => !isResetEvent e) = true →
        run s tr = s ∧ elapsedMs (run s tr) = elapsedMs s) ∧
    (∀ (s : Engine) (k tNow : Nat) (tm : Timer),
      s.pending[k]? = some tm →
      (fire s k tNow).deck.all (fun c => c.matched) = true →
      (fire s k tNow).deck ≠ [] →
        (fire s k tNow).finishedAt = some tNow) ∧
    (∀ (s : Engine) (i tNow : Nat), (flip s i tNow).finishedAt = s.finishedAt) := by
  refine ⟨?_, ?_, fire_stamps_completion, flip_finishedAt⟩
  · intro p js tr hsome
    have hinv := finishedInv_run tr (engineInit p js) (finishedInv_init p js)
    apply hinv
    unfold elapsedMs at hsome
    by_cases hcond : (truthy (run (engineInit p js) tr).finishedAt &&
        truthy (run (engineInit p js) tr).startedAt) = true
    · exact (Bool.and_eq_true _ _ |>.mp hcond).1
    · rw [if_neg hcond] at hsome
      simp at hsome
  · intro s tr hall hp hnr
    have hfrozen := run_frozen tr s hall hp hnr
    exact ⟨hfrozen, by rw [hfrozen]⟩

/-- Witness for claim C8 at a concrete input: a completed one-pair game
with no stale timer; the theorem yields that its deck is nonempty and
fully matched whenever elapsed time is present — and it is present. -/
theorem claim_completion_amended_witness :
    (elapsedMs (run (engineInit 1 idChoice) [.flip 0 1, .flip 1 2, .fire 0 4])).isSome = true ∧
      ((run (engineInit 1 idChoice) [.flip 0 1, .flip 1 2, .fire 0 4]).deck ≠ [] ∧
        (run (engineInit 1 idChoice) [.flip 0 1, .flip 1 2, .fire 0 4]).deck.all
          (fun c => c.matched) = true) :=
  ⟨by decide,
    claim_completion_amended.1 1 idChoice [.flip 0 1, .flip 1 2, .fire 0 4] (by decide)⟩

end GamesHub
